import Mathlib

/-!
Verification of the hubot-command library (Command.js / Parameter.js).

The JavaScript source is shallowly embedded here:
  * JS strings are `List Char`; `String.prototype.split(" ")`, `trim`,
    `substring`, `replace(pat, "")` (first occurrence) and regex containment
    `match(/help/)` are embedded as executable functions on `List Char`.
  * The mutable `this.model` object becomes an association list threaded
    through the computation; JS property assignment keeps the position of an
    existing key and appends a new one.
  * Thrown exceptions / rejected promises become `Except JsError`.  A JS
    `TypeError` caused by calling `.parse` on a `null` reference is the
    distinguished error `JsError.nullDeref`.
  * To reason about which callbacks the engine invokes and in which order,
    every invocation of the `parse` of a parameter, of `validate` and of `run`
    is recorded in an event trace returned next to the result.
-/

namespace HubotCommand

/-- Values that the concrete parameters of this repository store in the
command model: `new Date(text)` is represented by the raw text it was built
from, plain strings stay strings, and booleans (e.g. `executed`) are `Bool`. -/
inductive Value where
  | str (s : List Char)
  | date (s : List Char)
  | boolV (b : Bool)
deriving DecidableEq, Repr

/-- The command model: a JS object, i.e. an insertion-ordered association list
from field names to values. -/
def Model := List (List Char × Value)
deriving DecidableEq, Repr

/-- JS property read `m[k]`: first binding wins (keys are unique anyway). -/
def modelGet : Model → List Char → Option Value
  | [], _ => none
  | (k', v) :: rest, k => if k' = k then some v else modelGet rest k

/-- JS property assignment `m[k] = v`: overwrite in place, else append. -/
def modelSet : Model → List Char → Value → Model
  | [], k, v => [(k, v)]
  | (k', v') :: rest, k, v =>
    if k' = k then (k, v) :: rest else (k', v') :: modelSet rest k v

/-- Errors surfaced as rejected promises by the library.  `parseError` and
`validationError` are the two exception classes of exceptions.js;
`nullDeref` is the JS `TypeError` raised by invoking a method on `null`. -/
inductive JsError where
  | parseError (msg : List Char)
  | validationError (msg : List Char)
  | nullDeref
deriving DecidableEq, Repr

/-- Trace of the callback invocations of the engine during one `execute`. -/
inductive Event where
  | paramParse (name value : List Char)
  | validateCall (m : Model) (r : Bool)
  | runCall
deriving DecidableEq, Repr

/-- Whitespace as JS `trim` sees it (only these occur in the inputs the
library manipulates). -/
def jsWS (c : Char) : Bool :=
  (c = ' ') || (c = '\t') || (c = '\n') || (c = '\r')

/-- `spaceFree w` : the word `w` contains no whitespace character. -/
def spaceFree (w : List Char) : Bool := w.all (fun c => ! jsWS c)

/-- Accumulator version of JS `String.prototype.split(" ")`. -/
def splitAux : List Char → List Char → List (List Char)
  | [], acc => [acc.reverse]
  | c :: cs, acc => if c = ' ' then acc.reverse :: splitAux cs [] else splitAux cs (c :: acc)

/-- JS `s.split(" ")`: splits on every single space, keeping empty pieces;
`"".split(" ") = [""]`. -/
def jsSplit (s : List Char) : List (List Char) := splitAux s []

/-- JS `s.trim()`: drop whitespace from both ends. -/
def jsTrim (s : List Char) : List Char :=
  ((s.dropWhile jsWS).reverse.dropWhile jsWS).reverse

/-- JS `s.substring(a, b)` for `a ≤ b` within bounds: characters `[a, b)`. -/
def jsSubstring (s : List Char) (a b : Nat) : List Char := (s.take b).drop a

/-- JS `s.replace(pat, "")` with a plain-string pattern: removes the first
occurrence of `pat`, and leaves `s` unchanged when `pat` does not occur. -/
def jsReplaceFirst : List Char → List Char → List Char
  | [], _ => []
  | c :: cs, pat =>
    if pat.isPrefixOf (c :: cs) then (c :: cs).drop pat.length
    else c :: jsReplaceFirst cs pat

/-- Substring containment, the truthiness of JS `s.match(/help/)` for the
literal pattern `pat`. -/
def containsSub : List Char → List Char → Bool
  | pat, [] => pat.isEmpty
  | pat, c :: cs => pat.isPrefixOf (c :: cs) || containsSub pat cs

/-- `isHelpCommand` (Command.js line 301): true iff the input contains the
literal substring "help" anywhere. -/
def isHelpCommand (input : List Char) : Bool :=
  containsSub ("help").toList input

/-- Parameter.js: a named slot with help texts, the (unused by Command.js)
`wholeCommandString` flag, and the subclass-supplied `parse` conversion,
which updates the model of the owning command or throws. -/
structure Parameter where
  name : List Char
  wholeCommandString : Bool
  helpHeader : List Char
  helpDetail : List Char
  parse : List Char → Model → Except JsError Model

/-- The common shape of the concrete parameters of this repository
(FromParameter, ToParameter, ...): convert the raw segment text with `conv`
and write the result under the model field `field`, or throw a ParseError
with message `emsg` when the conversion rejects the text. -/
def mkFieldParam (nm field : List Char) (conv : List Char → Option Value)
    (emsg : List Char) : Parameter :=
  { name := nm
    wholeCommandString := false
    helpHeader := nm
    helpDetail := []
    parse := fun v m =>
      match conv v with
      | some val => Except.ok (modelSet m field val)
      | none => Except.error (JsError.parseError emsg) }

/-- Command.js: name, parameters in insertion order, the mutable model, the
help synopsis, and the subclass hooks `validate` and `run` (the base-class
default `validate` always returns true; `run` must be supplied). -/
structure Command where
  name : List Char
  parameters : List Parameter
  model : Model
  help : List Char
  validate : Model → Bool
  run : Model → Model

/-- JS object key lookup `this.parameters[k]`, `null` when absent. -/
def findParam : List Parameter → List Char → Option Parameter
  | [], _ => none
  | p :: rest, k => if p.name = k then some p else findParam rest k

/-- `Command.getParameter` (lines 161-168). -/
def Command.getParameter (cmd : Command) (k : List Char) : Option Parameter :=
  findParam cmd.parameters k

/-- JS object key insertion used by `addParameter` (lines 152-154):
re-registration under an existing name overwrites in place. -/
def insertParam : List Parameter → Parameter → List Parameter
  | [], p => [p]
  | q :: rest, p => if q.name = p.name then p :: rest else q :: insertParam rest p

/-- `Command.addParameter`. -/
def Command.addParameter (cmd : Command) (p : Parameter) : Command :=
  { cmd with parameters := insertParam cmd.parameters p }

/-- `Command.willParseCommand` (lines 286-288):
`commandString.substring(0, name.length) === name`. -/
def Command.willParseCommand (cmd : Command) (input : List Char) : Bool :=
  decide (jsSubstring input 0 cmd.name.length = cmd.name)

/-- The left-to-right word scan of `Command._parse` (lines 106-134).
`get` is `self.getParameter`; the scan keeps the pending value buffer and the
current ("previous") parameter.  A word naming a parameter is a boundary:
the active parameter, if any, is finalized with the trimmed buffer.  After
the loop, if the buffer is non-empty or a parameter is active, the active
parameter is finalized — when none is active this is JS
`null.parse(...)`, a TypeError (`nullDeref`). -/
def scanWords (get : List Char → Option Parameter) :
    List (List Char) → List Char → Option Parameter → Model → List Event →
    Except JsError Model × List Event
  | [], buf, prev, m, evs =>
    match prev with
    | some p =>
      let v := jsTrim buf
      (p.parse v m, evs ++ [Event.paramParse p.name v])
    | none =>
      if buf = [] then (Except.ok m, evs) else (Except.error JsError.nullDeref, evs)
  | w :: ws, buf, prev, m, evs =>
    match get w with
    | some p =>
      match prev with
      | none => scanWords get ws [] (some p) m evs
      | some q =>
        let v := jsTrim buf
        match q.parse v m with
        | Except.ok m2 =>
          scanWords get ws [] (some p) m2 (evs ++ [Event.paramParse q.name v])
        | Except.error e => (Except.error e, evs ++ [Event.paramParse q.name v])
    | none => scanWords get ws (buf ++ w ++ [' ']) prev m evs

/-- `ValidationError` message of `_parse` line 141. -/
def valMsg : List Char := ("The arguments passed to the parameter are not valid").toList

/-- `ParseError` message of `_parse` line 95. -/
def cannotParseMsg (input nm : List Char) : List Char :=
  ("The given input (").toList ++ input ++ (") cannot be parsed by the command ").toList ++ nm

/-- The part of `_parse` after the name has been stripped: split the argument
text into words and scan them, starting from the current model of the command. -/
def Command.scanPart (cmd : Command) (input : List Char) :
    Except JsError Model × List Event :=
  scanWords cmd.getParameter (jsSplit (input.drop (cmd.name.length + 1))) [] none cmd.model []

/-- `Command._parse` (lines 90-146): reject unless `willParseCommand`, strip
`name.length + 1` characters, scan the words, then call `validate` once; a
false result is a ValidationError, otherwise the model is resolved.
Note that the model is NOT reset here: the scan starts from `cmd.model`. -/
def Command.parseCmd (cmd : Command) (input : List Char) :
    Except JsError Model × List Event :=
  if cmd.willParseCommand input then
    match cmd.scanPart input with
    | (Except.ok m, evs) =>
      let r := cmd.validate m
      (if r then Except.ok m else Except.error (JsError.validationError valMsg),
       evs ++ [Event.validateCall m r])
    | (Except.error e, evs) => (Except.error e, evs)
  else
    (Except.error (JsError.parseError (cannotParseMsg input cmd.name)), [])

/-- The name the help action extracts (`_help` lines 217-219):
`input.replace(name, "").replace("help", "").trim()`. -/
def helpPname (cmd : Command) (input : List Char) : List Char :=
  jsTrim (jsReplaceFirst (jsReplaceFirst input cmd.name) (("help").toList))

/-- The line `_help` renders for one parameter: `"\t- <name>: <header>\n"`. -/
def paramLine (p : Parameter) : List Char :=
  ("\t- ").toList ++ p.name ++ (": ").toList ++ p.helpHeader ++ ("\n").toList

/-- `ParseError` message of `_help` line 227. -/
def unknownParamMsg (pname : List Char) : List Char :=
  ("The given parameter (").toList ++ pname ++ (") does not exist for this command.").toList

/-- `Command._help` (lines 216-243): with a non-empty extracted name, look the
parameter up and return `"<name>:\n\t<detail>"`, or throw; with an empty name
return the command help plus one listing line per parameter in insertion
order (the JS `for...in` accumulation is the fold). -/
def Command.helpRun (cmd : Command) (input : List Char) : Except JsError (List Char) :=
  let pname := helpPname cmd input
  if pname = [] then
    Except.ok (cmd.parameters.foldl (fun acc p => acc ++ paramLine p)
      (cmd.help ++ ("\n\nParameters:\n").toList))
  else
    match cmd.getParameter pname with
    | none => Except.error (JsError.parseError (unknownParamMsg pname))
    | some p => Except.ok (p.name ++ (":\n\t").toList ++ p.helpDetail)

/-- Result of `Command.execute`: the help string on the help branch, or on
the parse branch whatever `run` returned (the model, for the
commands). -/
inductive ExecResult where
  | helpText (s : List Char)
  | ranModel (m : Model)
deriving DecidableEq, Repr

/-- `Command.execute` (lines 190-204): if the input matches `/help/`, run the
help action; otherwise `_parse` then `run`. -/
def Command.execute (cmd : Command) (input : List Char) :
    Except JsError ExecResult × List Event :=
  if isHelpCommand input then
    match cmd.helpRun input with
    | Except.ok s => (Except.ok (ExecResult.helpText s), [])
    | Except.error e => (Except.error e, [])
  else
    match cmd.parseCmd input with
    | (Except.ok m, evs) => (Except.ok (ExecResult.ranModel (cmd.run m)), evs ++ [Event.runCall])
    | (Except.error e, evs) => (Except.error e, evs)

/-- Conversion used by the date-valued demo parameters below, the shape of
FromParameter/ToParameter: reject the empty text, otherwise `new Date(text)`. -/
def demoConv (v : List Char) : Option Value :=
  if v = [] then none else some (Value.date v)

/-- FromParameter of the test suite: writes `model.from = new Date(text)`,
rejecting empty text. -/
def fromParam : Parameter :=
  mkFieldParam (("from").toList) (("from").toList) demoConv
    (("the \"from\" parameter cannot be empty").toList)

/-- ToParameter of the test suite: writes `model.to = new Date(text)`. -/
def toParam : Parameter :=
  mkFieldParam (("to").toList) (("to").toList) demoConv
    (("the \"to\" parameter cannot be empty").toList)

/-- A minimal concrete command in the style of the test suite: name `test`,
parameters `from` and `to`, the base-class default `validate` (always true),
and a `run` that records `executed = true` in the model. -/
def demoCmd : Command :=
  { name := ("test").toList
    parameters := [fromParam, toParam]
    model := []
    help := ("A demo command").toList
    validate := fun _ => true
    run := fun m => modelSet m (("executed").toList) (Value.boolV true) }

/-- The ComplexParameter of TestCommand (test/ComplexParameter.js): declared with
`wholeCommandString = true`; its `parse` dumps the received text into
`model.complexDump`. -/
def complexParam : Parameter :=
  { name := ("complex").toList
    wholeCommandString := true
    helpHeader := ("An arbitrary complex parameter that needs the whole command input string.").toList
    helpDetail := ("detail").toList
    parse := fun v m => Except.ok (modelSet m (("complexDump").toList) (Value.str v)) }

/-- Lexicographic character-code order on char lists.  It models the
`new Date(a).getTime() < new Date(b).getTime()` comparison of
TestCommand.validate: for the equal-length ISO-8601 strings the test suite
uses, chronological order and lexicographic order coincide. -/
def listLt : List Char → List Char → Bool
  | [], [] => false
  | [], _ :: _ => true
  | _ :: _, [] => false
  | a :: as, b :: bs =>
    if a.toNat < b.toNat then true
    else if a.toNat = b.toNat then listLt as bs
    else false

/-- The exact text TestCommand.validate expects in `model.complexDump`
("This comes from the test.js file"). -/
def expectedComplexDump : List Char :=
  ("from 2015-12-01T09:00 to 2015-12-01T10:30").toList

/-- TestCommand.validate (test/TestCommand.js): the `from` date must be
before the `to` date, and the complex parameter must have dumped the whole
command string.  The fall-through `false` branches stand for model fields
that are absent (in JS, comparing against `undefined`); our theorems only
evaluate it on models where `from` and `to` are both present, matching the
JS control flow exactly (`undefined === string` is `false`). -/
def testCmd07validate (m : Model) : Bool :=
  (match modelGet m (("from").toList), modelGet m (("to").toList) with
   | some (Value.date f), some (Value.date t) => listLt f t
   | _, _ => false)
  && decide (modelGet m (("complexDump").toList) = some (Value.str expectedComplexDump))

/-- TestCommand (test/TestCommand.js): name `test`, parameters `from`, `to`
and `complex`, `run` sets `executed = true` and returns the model. -/
def testCmd07 : Command :=
  { name := ("test").toList
    parameters := [fromParam, toParam, complexParam]
    model := []
    help := ("A test command to prove that the library works").toList
    validate := testCmd07validate
    run := fun m => modelSet m (("executed").toList) (Value.boolV true) }

/-- A single-parameter command (parameter word `p` writing field `val`),
used to exercise repeated boundary words. -/
def pParam : Parameter :=
  mkFieldParam (("p").toList) (("val").toList) demoConv (("empty").toList)

/-- Command owning only `pParam`. -/
def demoCmdP : Command :=
  { name := ("test").toList
    parameters := [pParam]
    model := []
    help := ("A demo command").toList
    validate := fun _ => true
    run := fun m => m }

/-- Model produced by `demoCmd.parseCmd "test from a to b"`. -/
def c2m1 : Model :=
  [((("from").toList), Value.date (("a").toList)),
   ((("to").toList), Value.date (("b").toList))]

/-- Model seen by `validate` during the second parse, `"test from c"`, on the
same instance: `from` overwritten, the stale `to` still present. -/
def c2M2 : Model :=
  [((("from").toList), Value.date (("c").toList)),
   ((("to").toList), Value.date (("b").toList))]

/-- The demo command instance as it stands after the first parse (in JS the
same object, whose `this.model` the first `_parse` mutated). -/
def c2cmd2 : Command := { demoCmd with model := c2m1 }

/-- A demo instance whose model carries a leftover field `stale`, as a prior
parse would leave it. -/
def demoStaleCmd : Command :=
  { demoCmd with model := [((("stale").toList), Value.str (("x").toList))] }

/-- The general help text `demoCmd` renders. -/
def demoGeneralHelp : List Char :=
  ("A demo command\n\nParameters:\n\t- from: from\n\t- to: to\n").toList

/-- Words of the repeated-boundary argument text: `p v₁ p v₂ ... p vₙ`. -/
def repWords (pn : List Char) : List (List Char) → List (List Char)
  | [] => []
  | v :: rest => pn :: v :: repWords pn rest

/-- The repeated-boundary argument text itself, words joined by single
spaces. -/
def segJoin (pn : List Char) : List (List Char) → List Char
  | [] => []
  | [v] => pn ++ (' ' :: v)
  | v :: rest => pn ++ (' ' :: (v ++ (' ' :: segJoin pn rest)))

/-! ### Basic lemmas about the string embedding -/

lemma take_name (n rest : List Char) : (n ++ ' ' :: rest).take n.length = n := by
  induction n with
  | nil => simp
  | cons c n ih => simp [ih]

lemma strip_name (n rest : List Char) : (n ++ ' ' :: rest).drop (n.length + 1) = rest := by
  induction n with
  | nil => simp
  | cons c n ih => simp [ih]

lemma willParse_append (cmd : Command) (rest : List Char) :
    cmd.willParseCommand (cmd.name ++ ' ' :: rest) = true := by
  simp [Command.willParseCommand, jsSubstring, take_name]

lemma spaceFree_cons {c : Char} {w : List Char} (h : spaceFree (c :: w) = true) :
    jsWS c = false ∧ spaceFree w = true := by
  simpa [spaceFree, Bool.not_eq_true'] using h

lemma ws_ne_space {c : Char} (h : jsWS c = false) : ¬ (c = ' ') := by
  intro hc; subst hc; simp [jsWS] at h

lemma dropWhile_spaceFree {w : List Char} (h : spaceFree w = true) :
    w.dropWhile jsWS = w := by
  cases w with
  | nil => rfl
  | cons c cs => simp [List.dropWhile_cons, (spaceFree_cons h).1]

lemma spaceFree_reverse {w : List Char} (h : spaceFree w = true) :
    spaceFree w.reverse = true := by
  simpa [spaceFree] using h

lemma jsTrim_word {w : List Char} (h : spaceFree w = true) : jsTrim (w ++ [' ']) = w := by
  cases w with
  | nil => rfl
  | cons c cs =>
    obtain ⟨h1, _⟩ := spaceFree_cons h
    have hws : jsWS ' ' = true := by simp [jsWS]
    have hrev : spaceFree (cs.reverse ++ [c]) = true := by
      simpa [List.reverse_cons] using spaceFree_reverse h
    simp [jsTrim, List.dropWhile_cons, h1, hws, List.reverse_append,
      dropWhile_spaceFree hrev]

lemma splitAux_no_space {w : List Char} (h : spaceFree w = true) :
    ∀ acc, splitAux w acc = [acc.reverse ++ w] := by
  induction w with
  | nil => intro acc; simp [splitAux]
  | cons c cs ih =>
    intro acc
    obtain ⟨h1, h2⟩ := spaceFree_cons h
    simp [splitAux, ws_ne_space h1, ih h2]

lemma splitAux_word {w : List Char} (h : spaceFree w = true) (rest : List Char) :
    ∀ acc, splitAux (w ++ ' ' :: rest) acc = (acc.reverse ++ w) :: splitAux rest [] := by
  induction w with
  | nil => intro acc; simp [splitAux]
  | cons c cs ih =>
    intro acc
    obtain ⟨h1, h2⟩ := spaceFree_cons h
    simp [splitAux, ws_ne_space h1, ih h2]

/-! ### Lemmas about the model -/

lemma modelGet_modelSet_self (m : Model) (k : List Char) (v : Value) :
    modelGet (modelSet m k v) k = some v := by
  induction m with
  | nil => simp [modelSet, modelGet]
  | cons kv rest ih =>
    obtain ⟨k', v'⟩ := kv
    by_cases h : k' = k <;> simp [modelSet, modelGet, h, ih]

lemma modelGet_modelSet_ne (m : Model) {k k' : List Char} (v : Value) (h : k' ≠ k) :
    modelGet (modelSet m k' v) k = modelGet m k := by
  induction m with
  | nil => simp [modelSet, modelGet, h]
  | cons kv rest ih =>
    obtain ⟨a, b⟩ := kv
    by_cases ha : a = k' <;> by_cases hk : a = k <;>
      simp_all [modelSet, modelGet]

lemma mkFieldParam_preserves {nm f conv emsg} {k : List Char} (hk : f ≠ k) :
    ∀ v m mo, (mkFieldParam nm f conv emsg).parse v m = Except.ok mo →
      modelGet mo k = modelGet m k := by
  intro v m mo h
  simp only [mkFieldParam] at h
  cases hc : conv v with
  | none => rw [hc] at h; simp at h
  | some val =>
    rw [hc] at h
    simp at h
    subst h
    exact modelGet_modelSet_ne m val hk

/-! ### Lemmas about the word scan -/

lemma scanWords_events (get : List Char → Option Parameter) :
    ∀ ws buf prev m evs, ∃ tail,
      (scanWords get ws buf prev m evs).2 = evs ++ tail ∧
      ∀ e ∈ tail, ∃ pn v, e = Event.paramParse pn v := by
  intro ws
  induction ws with
  | nil =>
    intro buf prev m evs
    cases prev with
    | some p =>
      exact ⟨[Event.paramParse p.name (jsTrim buf)], rfl, by simp⟩
    | none =>
      by_cases h : buf = [] <;> exact ⟨[], by simp [scanWords, h], by simp⟩
  | cons w ws ih =>
    intro buf prev m evs
    cases hg : get w with
    | none => simpa [scanWords, hg] using ih (buf ++ w ++ [' ']) prev m evs
    | some p =>
      cases prev with
      | none => simpa [scanWords, hg] using ih [] (some p) m evs
      | some q =>
        cases hp : q.parse (jsTrim buf) m with
        | ok m2 =>
          obtain ⟨tail, ht, hmem⟩ :=
            ih [] (some p) m2 (evs ++ [Event.paramParse q.name (jsTrim buf)])
          refine ⟨Event.paramParse q.name (jsTrim buf) :: tail, ?_, ?_⟩
          · simp [scanWords, hg, hp, ht]
          · intro e he
            rcases List.mem_cons.mp he with he | he
            · exact ⟨q.name, jsTrim buf, he⟩
            · exact hmem e he
        | error e =>
          exact ⟨[Event.paramParse q.name (jsTrim buf)], by simp [scanWords, hg, hp], by simp⟩

lemma scan_preserve (get : List Char → Option Parameter) (k : List Char)
    (hget : ∀ w p, get w = some p →
      ∀ v m mo, p.parse v m = Except.ok mo → modelGet mo k = modelGet m k) :
    ∀ ws buf prev m evs m2 evs2,
      (∀ p, prev = some p →
        ∀ v mm mo, p.parse v mm = Except.ok mo → modelGet mo k = modelGet mm k) →
      scanWords get ws buf prev m evs = (Except.ok m2, evs2) →
      modelGet m2 k = modelGet m k := by
  intro ws
  induction ws with
  | nil =>
    intro buf prev m evs m2 evs2 hprev hs
    cases prev with
    | some p =>
      simp only [scanWords] at hs
      have := congrArg Prod.fst hs
      exact hprev p rfl _ _ _ this
    | none =>
      by_cases h : buf = [] <;> simp [scanWords, h] at hs
      exact hs.1 ▸ rfl
  | cons w ws ih =>
    intro buf prev m evs m2 evs2 hprev hs
    cases hg : get w with
    | none =>
      rw [scanWords, hg] at hs
      exact ih _ prev m evs m2 evs2 hprev hs
    | some p =>
      cases prev with
      | none =>
        rw [scanWords, hg] at hs
        exact ih [] (some p) m evs m2 evs2 (by
          intro p' hp'
          cases hp'
          exact hget w p hg) hs
      | some q =>
        cases hp : q.parse (jsTrim buf) m with
        | ok mm =>
          rw [scanWords, hg] at hs
          simp only [hp] at hs
          have h1 : modelGet m2 k = modelGet mm k :=
            ih [] (some p) mm _ m2 evs2 (by
              intro p' hp'
              cases hp'
              exact hget w p hg) hs
          have h2 : modelGet mm k = modelGet m k := hprev q rfl _ _ _ hp
          exact h1.trans h2
        | error e =>
          rw [scanWords, hg] at hs
          simp only [hp] at hs
          exact absurd (congrArg Prod.fst hs) (by simp)

lemma mkFieldParam_parse_ok {nm f emsg v : List Char} {conv : List Char → Option Value}
    {m : Model} {val : Value} (hc : conv v = some val) :
    (mkFieldParam nm f conv emsg).parse v m = Except.ok (modelSet m f val) := by
  simp [mkFieldParam, hc]

lemma mkFieldParam_parse_err {nm f emsg v : List Char} {conv : List Char → Option Value}
    {m : Model} (hc : conv v = none) :
    (mkFieldParam nm f conv emsg).parse v m = Except.error (JsError.parseError emsg) := by
  simp [mkFieldParam, hc]

lemma mkFieldParam_name {nm f emsg : List Char} {conv : List Char → Option Value} :
    (mkFieldParam nm f conv emsg).name = nm := rfl

lemma findParam_mem : ∀ (ps : List Parameter) (k : List Char) (p : Parameter),
    findParam ps k = some p → p ∈ ps := by
  intro ps
  induction ps with
  | nil => intro k p h; simp [findParam] at h
  | cons q ps ih =>
    intro k p h
    by_cases hq : q.name = k
    · simp [findParam, hq] at h
      simp [h]
    · simp only [findParam, if_neg hq] at h
      exact List.mem_cons_of_mem q (ih k p h)

lemma foldl_paramLine (ps : List Parameter) :
    ∀ acc, ps.foldl (fun a p => a ++ paramLine p) acc = acc ++ (ps.map paramLine).flatten := by
  induction ps with
  | nil => intro acc; simp
  | cons p ps ih => intro acc; simp [ih, List.append_assoc]

lemma modelGet_foldl_set (f : List Char) (g : List Char → Value) :
    ∀ (l : List (List Char)) (m : Model) (v : List Char),
      modelGet ((v :: l).foldl (fun mm w => modelSet mm f (g w)) m) f
        = ((v :: l).getLast?).map g := by
  intro l
  induction l with
  | nil => intro m v; simp [modelGet_modelSet_self]
  | cons w l ih =>
    intro m v
    have := ih (modelSet m f (g v)) w
    simpa [List.getLast?_cons_cons] using this

lemma scan_rep (get : List Char → Option Parameter) (pn f emsg : List Char)
    (conv : List Char → Option Value) (g : List Char → Value)
    (hget : get pn = some (mkFieldParam pn f conv emsg)) :
    ∀ (vs : List (List Char)) (w : List Char) (m : Model) (evs : List Event),
      (∀ v ∈ vs, get v = none ∧ spaceFree v = true ∧ conv v = some (g v)) →
      spaceFree w = true → conv w = some (g w) →
      scanWords get (repWords pn vs) (w ++ [' ']) (some (mkFieldParam pn f conv emsg)) m evs
        = (Except.ok ((w :: vs).foldl (fun mm v => modelSet mm f (g v)) m),
           evs ++ (w :: vs).map (fun v => Event.paramParse pn v)) := by
  intro vs
  induction vs with
  | nil =>
    intro w m evs _ hw hc
    simp [repWords, scanWords, jsTrim_word hw, mkFieldParam_parse_ok hc, mkFieldParam_name]
  | cons v vs ih =>
    intro w m evs hvs hw hc
    obtain ⟨hv1, hv2, hv3⟩ := hvs v (List.mem_cons_self v vs)
    have hrest : ∀ x ∈ vs, get x = none ∧ spaceFree x = true ∧ conv x = some (g x) :=
      fun x hx => hvs x (List.mem_cons_of_mem v hx)
    have step := ih v (modelSet m f (g w)) (evs ++ [Event.paramParse pn w]) hrest hv2 hv3
    simp only [repWords, scanWords, hget, jsTrim_word hw, mkFieldParam_parse_ok hc,
      mkFieldParam_name, hv1, List.nil_append]
    rw [step]
    simp [List.append_assoc]

lemma jsSplit_segJoin (pn : List Char) (hpn : spaceFree pn = true) :
    ∀ (vs : List (List Char)) (v : List Char), spaceFree v = true →
      (∀ x ∈ vs, spaceFree x = true) →
      jsSplit (segJoin pn (v :: vs)) = pn :: v :: repWords pn vs := by
  intro vs
  induction vs with
  | nil =>
    intro v hv _
    simp [segJoin, jsSplit, splitAux_word hpn, splitAux_no_space hv, repWords]
  | cons v2 vs ih =>
    intro v hv hall
    have h2 : spaceFree v2 = true := hall v2 (List.mem_cons_self v2 vs)
    have hrest : ∀ x ∈ vs, spaceFree x = true :=
      fun x hx => hall x (List.mem_cons_of_mem v2 hx)
    have := ih v2 h2 hrest
    simp only [segJoin, jsSplit] at this ⊢
    rw [splitAux_word hpn, splitAux_word hv]
    simp only [List.nil_append, List.reverse_nil]
    rw [this]
    simp [repWords]

/-! ### Claim theorems -/

/-- C9: for every text `t`, `willParseCommand t` is true exactly when the
first `name.length` characters of `t` equal the name of the command — an exact
prefix comparison with no word-boundary check, so the command named `test`
also accepts the input `testing...`. -/
theorem c9_willParse_iff :
    (∀ (cmd : Command) (t : List Char),
      cmd.willParseCommand t = true ↔ t.take cmd.name.length = cmd.name) ∧
    demoCmd.willParseCommand (("testing...").toList) = true := by
  constructor
  · intro cmd t
    simp [Command.willParseCommand, jsSubstring]
  · decide

/-- C8: any input containing the substring "help" anywhere is dispatched to
the help action: `execute` produces exactly the `_help` result, records no
parameter/validate/run event, and never enters the parse-then-run branch.
In particular `"test unhelpful"` is (mis)classified as a help request — the
leftover text "unful" is then looked up as a parameter name and rejected. -/
theorem c8_help_dispatch :
    (∀ (cmd : Command) (t : List Char), isHelpCommand t = true →
      (cmd.execute t).2 = [] ∧
      (cmd.execute t).1 = (cmd.helpRun t).map ExecResult.helpText) ∧
    demoCmd.execute (("test unhelpful").toList)
      = (Except.error (JsError.parseError (unknownParamMsg (("unful").toList))), []) := by
  constructor
  · intro cmd t h
    cases hr : cmd.helpRun t with
    | ok s => simp [Command.execute, h, hr, Except.map]
    | error e => simp [Command.execute, h, hr, Except.map]
  · rfl

/-- C7: the three help-rendering cases of `_help`: an empty remaining name
yields the command help, the header `"\n\nParameters:\n"`, and one line
`"\t- <name>: <header>\n"` per registered parameter in insertion order; a
remaining name bound to a parameter yields exactly `"<name>:\n\t<detail>"`;
an unknown remaining name yields a ParseError naming it. -/
theorem c7_help_render (cmd : Command) (input : List Char) :
    (helpPname cmd input = [] →
      cmd.helpRun input = Except.ok
        (cmd.help ++ ("\n\nParameters:\n").toList ++ (cmd.parameters.map paramLine).flatten)) ∧
    (∀ p, helpPname cmd input ≠ [] → cmd.getParameter (helpPname cmd input) = some p →
      cmd.helpRun input = Except.ok (p.name ++ (":\n\t").toList ++ p.helpDetail)) ∧
    (helpPname cmd input ≠ [] → cmd.getParameter (helpPname cmd input) = none →
      cmd.helpRun input
        = Except.error (JsError.parseError (unknownParamMsg (helpPname cmd input)))) := by
  refine ⟨?_, ?_, ?_⟩
  · intro h
    simp [Command.helpRun, h, foldl_paramLine]
  · intro p hne hp
    simp [Command.helpRun, hne, hp]
  · intro hne hp
    simp [Command.helpRun, hne, hp]

/-- Witness for C7 at `demoCmd` and input "test help" (empty remaining
name: the general-help case). -/
theorem c7_help_render_witness :
    helpPname demoCmd (("test help").toList) = [] ∧
    demoCmd.helpRun (("test help").toList) = Except.ok
      (demoCmd.help ++ ("\n\nParameters:\n").toList
        ++ (demoCmd.parameters.map paramLine).flatten) :=
  ⟨by decide, (c7_help_render demoCmd (("test help").toList)).1 (by decide)⟩

/-- Witness for C8 at a concrete input containing "help". -/
theorem c8_help_dispatch_witness :
    isHelpCommand (("x help").toList) = true ∧
    ((demoCmd.execute (("x help").toList)).2 = [] ∧
      (demoCmd.execute (("x help").toList)).1
        = (demoCmd.helpRun (("x help").toList)).map ExecResult.helpText) :=
  ⟨by decide, c8_help_dispatch.1 demoCmd (("x help").toList) (by decide)⟩

/-- C3 (counterexample): the claim "whenever `willParseCommand t` is false,
`execute t` rejects with a ParseError" is false on the code: `execute`
tests `/help/` first, so for the command named `test` the input `"help"`
fails `willParseCommand` yet `execute` RESOLVES with the general help
text. -/
theorem c3_help_not_rejected_cx :
    demoCmd.willParseCommand (("help").toList) = false ∧
    demoCmd.execute (("help").toList)
      = (Except.ok (ExecResult.helpText demoGeneralHelp), []) := by
  exact ⟨by decide, rfl⟩

/-- C3 (amended): for every input that does not contain the substring
"help" and fails `willParseCommand`, `execute` rejects with the ParseError
built from the input and the command name, with an empty event trace — so
no parameter conversion, no `validate` and no `run` is invoked. -/
theorem c3_reject_nonhelp (cmd : Command) (t : List Char)
    (hh : isHelpCommand t = false) (hw : cmd.willParseCommand t = false) :
    cmd.execute t = (Except.error (JsError.parseError (cannotParseMsg t cmd.name)), []) := by
  simp [Command.execute, hh, Command.parseCmd, hw]

/-- Witness for the amended C3 at the input "nope". -/
theorem c3_reject_nonhelp_witness :
    isHelpCommand (("nope").toList) = false ∧
    demoCmd.willParseCommand (("nope").toList) = false ∧
    demoCmd.execute (("nope").toList)
      = (Except.error (JsError.parseError
          (cannotParseMsg (("nope").toList) demoCmd.name)), []) :=
  ⟨by decide, by decide,
    c3_reject_nonhelp demoCmd (("nope").toList) (by decide) (by decide)⟩

/-- C4 (code bug): on an accepted, non-help input whose argument text has no
word naming a registered parameter ("test foo"), `_parse` is NOT a silent
no-op: the pending buffer is non-empty, `previousParameter` is still null,
and line 133 invokes `null.parse(...)` — a TypeError rejection
(`nullDeref`), with neither a parameter parse, nor validate, nor run ever
invoked. -/
theorem c4_no_param_word_type_error :
    demoCmd.execute (("test foo").toList) = (Except.error JsError.nullDeref, []) := rfl

/-- Model state right before `validate` on the canonical test-suite
input: only `from` and `to` were ever finalized. -/
def c5Model : Model :=
  [((("from").toList), Value.date (("2015-12-01T09:00").toList)),
   ((("to").toList), Value.date (("2015-12-01T10:30").toList))]

/-- C5 (code bug): `Command._parse` never consults `wholeCommandString`, so
on the canonical input of its own test suite, the `parse` of ComplexParameter is
never invoked (the word "complex" never occurs), `model.complexDump` stays
unset, and TestCommand.validate — which requires the dumped whole string —
fails: `execute` rejects with a ValidationError instead of delivering the
whole argument text to the whole-input parameter. -/
theorem c5_whole_input_never_delivered :
    testCmd07.execute (("test from 2015-12-01T09:00 to 2015-12-01T10:30").toList)
      = (Except.error (JsError.validationError valMsg),
         [Event.paramParse (("from").toList) (("2015-12-01T09:00").toList),
          Event.paramParse (("to").toList) (("2015-12-01T10:30").toList),
          Event.validateCall c5Model false]) ∧
    modelGet c5Model (("complexDump").toList) = none := by
  exact ⟨rfl, rfl⟩

/-- C2 (counterexample): the model is NOT reset at the start of a parse.
First parse `"test from a to b"` leaves the fields `from = a` and `to = b` in the
model of the instance; a second parse of `"test from c"` on the same instance hands
`validate` a model that still contains the `to` field of the first parse. -/
theorem c2_stale_model_cx :
    (demoCmd.parseCmd (("test from a to b").toList)).1 = Except.ok c2m1 ∧
    modelGet c2m1 (("to").toList) = some (Value.date (("b").toList)) ∧
    (c2cmd2.parseCmd (("test from c").toList)).2
      = [Event.paramParse (("from").toList) (("c").toList), Event.validateCall c2M2 true] ∧
    modelGet c2M2 (("to").toList) = some (Value.date (("b").toList)) := by
  exact ⟨rfl, rfl, rfl, rfl⟩

/-- C2 (amended): `_parse` starts the scan from the existing
model (the constructor alone initializes it to empty), so any field that no
parameter write touches — in particular one written by an earlier parse on
the same instance — keeps its pre-parse value in the model that `validate`
and the resolution see. -/
theorem c2_no_reset (cmd : Command) (input k : List Char) (m2 : Model)
    (hp : ∀ p ∈ cmd.parameters,
      ∀ v m mo, p.parse v m = Except.ok mo → modelGet mo k = modelGet m k)
    (hres : (cmd.parseCmd input).1 = Except.ok m2) :
    modelGet m2 k = modelGet cmd.model k := by
  by_cases hw : cmd.willParseCommand input
  · rw [Command.parseCmd, if_pos hw] at hres
    rcases hsc : cmd.scanPart input with ⟨r, evs⟩
    rw [hsc] at hres
    cases r with
    | error e => simp at hres
    | ok mm =>
      simp only at hres
      have hmm : mm = m2 := by
        by_cases hv : cmd.validate mm <;> simp [hv] at hres
        exact hres
      have hs' : scanWords cmd.getParameter
          (jsSplit (input.drop (cmd.name.length + 1))) [] none cmd.model []
          = (Except.ok mm, evs) := hsc
      have := scan_preserve cmd.getParameter k
        (fun w p hgp => hp p (findParam_mem cmd.parameters w p hgp))
        (jsSplit (input.drop (cmd.name.length + 1))) [] none cmd.model [] mm evs
        (fun p hps => by cases hps) hs'
      exact hmm ▸ this
  · rw [Command.parseCmd, if_neg hw] at hres
    simp at hres

/-- Model of `demoStaleCmd` after parsing `"test from c"`: the leftover
`stale` field is untouched. -/
def c2m3 : Model :=
  [((("stale").toList), Value.str (("x").toList)),
   ((("from").toList), Value.date (("c").toList))]

/-- Witness for the amended C2: a parse on an instance whose model carries
a leftover field keeps that field. -/
theorem c2_no_reset_witness :
    (demoStaleCmd.parseCmd (("test from c").toList)).1 = Except.ok c2m3 ∧
    modelGet c2m3 (("stale").toList) = modelGet demoStaleCmd.model (("stale").toList) :=
  ⟨rfl, c2_no_reset demoStaleCmd (("test from c").toList) (("stale").toList) c2m3
    (by
      intro p hps v m mo h
      have hcases : p = fromParam ∨ p = toParam := by
        simpa [demoStaleCmd, demoCmd] using hps
      rcases hcases with hpf | hpf <;> subst hpf
      · exact mkFieldParam_preserves (by decide) v m mo h
      · exact mkFieldParam_preserves (by decide) v m mo h)
    rfl⟩

/-- C6: whenever the word scan of the non-help branch finalizes all segments
without error (result `(ok m, evs)`, where `evs` consists of parameter
finalizations only), `validate` is invoked exactly once, on `m`, after the
last finalization; a false result rejects with a ValidationError and `run`
is never invoked, a true result is followed by exactly one `run`
invocation. -/
theorem c6_validate_then_run (cmd : Command) (input : List Char) (m : Model) (evs : List Event)
    (hh : isHelpCommand input = false)
    (hw : cmd.willParseCommand input = true)
    (hs : cmd.scanPart input = (Except.ok m, evs)) :
    (∀ e ∈ evs, ∃ pn v, e = Event.paramParse pn v) ∧
    cmd.execute input =
      (if cmd.validate m
        then (Except.ok (ExecResult.ranModel (cmd.run m)),
              evs ++ [Event.validateCall m true, Event.runCall])
        else (Except.error (JsError.validationError valMsg),
              evs ++ [Event.validateCall m false])) := by
  have hs' : scanWords cmd.getParameter
      (jsSplit (input.drop (cmd.name.length + 1))) [] none cmd.model []
      = (Except.ok m, evs) := hs
  obtain ⟨tail, ht, hmem⟩ := scanWords_events cmd.getParameter
    (jsSplit (input.drop (cmd.name.length + 1))) [] none cmd.model []
  rw [hs'] at ht
  simp only [List.nil_append] at ht
  constructor
  · intro e he
    exact hmem e (ht ▸ he)
  · cases hv : cmd.validate m with
    | true => simp [Command.execute, hh, Command.parseCmd, hw, hs, hv]
    | false => simp [Command.execute, hh, Command.parseCmd, hw, hs, hv]

/-- Scan result model for the C6 witness input. -/
def c6mWit : Model :=
  [((("from").toList), Value.date (("a").toList)),
   ((("to").toList), Value.date (("b").toList))]

/-- Scan event trace for the C6 witness input. -/
def c6evsWit : List Event :=
  [Event.paramParse (("from").toList) (("a").toList),
   Event.paramParse (("to").toList) (("b").toList)]

/-- Witness for C6: `demoCmd` on `"test from a to b"` (validate true, so
`run` fires after the single validate call). -/
theorem c6_validate_then_run_witness :
    isHelpCommand (("test from a to b").toList) = false ∧
    demoCmd.willParseCommand (("test from a to b").toList) = true ∧
    demoCmd.scanPart (("test from a to b").toList) = (Except.ok c6mWit, c6evsWit) ∧
    ((∀ e ∈ c6evsWit, ∃ pn v, e = Event.paramParse pn v) ∧
      demoCmd.execute (("test from a to b").toList) =
        (if demoCmd.validate c6mWit
          then (Except.ok (ExecResult.ranModel (demoCmd.run c6mWit)),
                c6evsWit ++ [Event.validateCall c6mWit true, Event.runCall])
          else (Except.error (JsError.validationError valMsg),
                c6evsWit ++ [Event.validateCall c6mWit false]))) :=
  ⟨by decide, by decide, rfl,
    c6_validate_then_run demoCmd (("test from a to b").toList) c6mWit c6evsWit
      (by decide) (by decide) rfl⟩

/-- C1: for a command with two registered field-writing parameters and an
input `"<name> <p1name> <v1> <p2name> <v2>"` whose conversions succeed, the
scan finalizes `p1` with the trimmed text `v1` exactly when the boundary
word `p2name` is reached, finalizes `p2` with the trimmed text `v2` at the
end of the scan (the two `paramParse` events, in that order), and the model
handed to `validate` holds both converted values under their respective
fields — whichever of the two registration orders was used. -/
theorem c1_segment_assignment
    (n p1n p2n v1 v2 f1 f2 e1 e2 : List Char)
    (conv1 conv2 : List Char → Option Value) (val1 val2 : Value) (cmd : Command)
    (_hn : spaceFree n = true) (hp1 : spaceFree p1n = true) (hp2 : spaceFree p2n = true)
    (hw1 : spaceFree v1 = true) (hw2 : spaceFree v2 = true)
    (hne : p1n ≠ p2n)
    (h11 : v1 ≠ p1n) (h12 : v1 ≠ p2n) (h21 : v2 ≠ p1n) (h22 : v2 ≠ p2n)
    (hc1 : conv1 v1 = some val1) (hc2 : conv2 v2 = some val2)
    (hf : f1 ≠ f2)
    (hps : cmd.parameters = [mkFieldParam p1n f1 conv1 e1, mkFieldParam p2n f2 conv2 e2]
         ∨ cmd.parameters = [mkFieldParam p2n f2 conv2 e2, mkFieldParam p1n f1 conv1 e1])
    (hname : cmd.name = n) :
    cmd.parseCmd (n ++ (' ' :: (p1n ++ (' ' :: (v1 ++ (' ' :: (p2n ++ (' ' :: v2))))))))
      = (if cmd.validate (modelSet (modelSet cmd.model f1 val1) f2 val2)
          then Except.ok (modelSet (modelSet cmd.model f1 val1) f2 val2)
          else Except.error (JsError.validationError valMsg),
         [Event.paramParse p1n v1, Event.paramParse p2n v2,
          Event.validateCall (modelSet (modelSet cmd.model f1 val1) f2 val2)
            (cmd.validate (modelSet (modelSet cmd.model f1 val1) f2 val2))])
      ∧ modelGet (modelSet (modelSet cmd.model f1 val1) f2 val2) f1 = some val1
      ∧ modelGet (modelSet (modelSet cmd.model f1 val1) f2 val2) f2 = some val2 := by
  have hg1 : cmd.getParameter p1n = some (mkFieldParam p1n f1 conv1 e1) := by
    rcases hps with h | h <;>
      simp [Command.getParameter, h, findParam, mkFieldParam_name, Ne.symm hne]
  have hg2 : cmd.getParameter p2n = some (mkFieldParam p2n f2 conv2 e2) := by
    rcases hps with h | h <;>
      simp [Command.getParameter, h, findParam, mkFieldParam_name, hne]
  have hgv1 : cmd.getParameter v1 = none := by
    rcases hps with h | h <;>
      simp [Command.getParameter, h, findParam, mkFieldParam_name,
        Ne.symm h11, Ne.symm h12]
  have hgv2 : cmd.getParameter v2 = none := by
    rcases hps with h | h <;>
      simp [Command.getParameter, h, findParam, mkFieldParam_name,
        Ne.symm h21, Ne.symm h22]
  have hwp : cmd.willParseCommand
      (n ++ (' ' :: (p1n ++ (' ' :: (v1 ++ (' ' :: (p2n ++ (' ' :: v2)))))))) = true := by
    have := willParse_append cmd (p1n ++ (' ' :: (v1 ++ (' ' :: (p2n ++ (' ' :: v2))))))
    rwa [hname] at this
  have hdrop : (n ++ (' ' :: (p1n ++ (' ' :: (v1 ++ (' ' :: (p2n ++ (' ' :: v2)))))))).drop
      (cmd.name.length + 1) = p1n ++ (' ' :: (v1 ++ (' ' :: (p2n ++ (' ' :: v2))))) := by
    rw [hname]
    exact strip_name n _
  have hsplit : jsSplit (p1n ++ (' ' :: (v1 ++ (' ' :: (p2n ++ (' ' :: v2))))))
      = [p1n, v1, p2n, v2] := by
    simp [jsSplit, splitAux_word hp1, splitAux_word hw1, splitAux_word hp2,
      splitAux_no_space hw2]
  have hscan : cmd.scanPart
      (n ++ (' ' :: (p1n ++ (' ' :: (v1 ++ (' ' :: (p2n ++ (' ' :: v2))))))))
      = (Except.ok (modelSet (modelSet cmd.model f1 val1) f2 val2),
         [Event.paramParse p1n v1, Event.paramParse p2n v2]) := by
    rw [Command.scanPart, hdrop, hsplit]
    simp only [scanWords, hg1, hgv1, hg2, hgv2, List.nil_append,
      jsTrim_word hw1, jsTrim_word hw2, mkFieldParam_parse_ok hc1,
      mkFieldParam_parse_ok hc2, mkFieldParam_name]
    simp
  refine ⟨?_, ?_, ?_⟩
  · simp [Command.parseCmd, hwp, hscan]
  · exact (modelGet_modelSet_ne _ val2 (Ne.symm hf)).trans
      (modelGet_modelSet_self _ f1 val1)
  · exact modelGet_modelSet_self _ f2 val2

/-- Witness for C1: `demoCmd` (parameters registered as `[from, to]`) on
the input `"test from a to b"`. -/
theorem c1_segment_assignment_witness :
    demoCmd.parseCmd ((("test").toList) ++ (' ' :: ((("from").toList) ++ (' ' ::
        ((("a").toList) ++ (' ' :: ((("to").toList) ++ (' ' :: (("b").toList)))))))))
      = (if demoCmd.validate (modelSet (modelSet demoCmd.model (("from").toList)
            (Value.date (("a").toList))) (("to").toList) (Value.date (("b").toList)))
          then Except.ok (modelSet (modelSet demoCmd.model (("from").toList)
            (Value.date (("a").toList))) (("to").toList) (Value.date (("b").toList)))
          else Except.error (JsError.validationError valMsg),
         [Event.paramParse (("from").toList) (("a").toList),
          Event.paramParse (("to").toList) (("b").toList),
          Event.validateCall (modelSet (modelSet demoCmd.model (("from").toList)
              (Value.date (("a").toList))) (("to").toList) (Value.date (("b").toList)))
            (demoCmd.validate (modelSet (modelSet demoCmd.model (("from").toList)
              (Value.date (("a").toList))) (("to").toList) (Value.date (("b").toList))))])
      ∧ modelGet (modelSet (modelSet demoCmd.model (("from").toList)
          (Value.date (("a").toList))) (("to").toList) (Value.date (("b").toList)))
          (("from").toList) = some (Value.date (("a").toList))
      ∧ modelGet (modelSet (modelSet demoCmd.model (("from").toList)
          (Value.date (("a").toList))) (("to").toList) (Value.date (("b").toList)))
          (("to").toList) = some (Value.date (("b").toList)) :=
  c1_segment_assignment (("test").toList) (("from").toList) (("to").toList)
    (("a").toList) (("b").toList) (("from").toList) (("to").toList)
    ((("the \"from\" parameter cannot be empty").toList))
    ((("the \"to\" parameter cannot be empty").toList))
    demoConv demoConv (Value.date (("a").toList)) (Value.date (("b").toList)) demoCmd
    (by decide) (by decide) (by decide) (by decide) (by decide)
    (by decide) (by decide) (by decide) (by decide) (by decide)
    rfl rfl (by decide) (Or.inl rfl) rfl

/-- C10 (implicit): when the name of a registered parameter occurs as a word
several times in the argument text (`"<name> p v₀ p v₁ ... p vₖ"`), the
tokenizer finalizes a segment at every occurrence after the first and once
more at end of scan — one `paramParse` invocation per segment, in
left-to-right order — and since the parameter writes a fixed model field,
each later invocation overwrites the earlier one, leaving the conversion of
the LAST segment in the field. -/
theorem c10_repeated_boundaries
    (n pn f emsg : List Char) (conv : List Char → Option Value) (g : List Char → Value)
    (cmd : Command) (v0 : List Char) (vs : List (List Char))
    (_hn : spaceFree n = true) (hpn : spaceFree pn = true)
    (hvs : ∀ v ∈ v0 :: vs, spaceFree v = true ∧ v ≠ pn ∧ conv v = some (g v))
    (hps : cmd.parameters = [mkFieldParam pn f conv emsg])
    (hname : cmd.name = n) :
    cmd.parseCmd (n ++ (' ' :: segJoin pn (v0 :: vs)))
      = (if cmd.validate ((v0 :: vs).foldl (fun mm v => modelSet mm f (g v)) cmd.model)
          then Except.ok ((v0 :: vs).foldl (fun mm v => modelSet mm f (g v)) cmd.model)
          else Except.error (JsError.validationError valMsg),
         ((v0 :: vs).map (fun v => Event.paramParse pn v)) ++
           [Event.validateCall ((v0 :: vs).foldl (fun mm v => modelSet mm f (g v)) cmd.model)
             (cmd.validate ((v0 :: vs).foldl (fun mm v => modelSet mm f (g v)) cmd.model))])
      ∧ modelGet ((v0 :: vs).foldl (fun mm v => modelSet mm f (g v)) cmd.model) f
          = ((v0 :: vs).getLast?).map g := by
  have hget : cmd.getParameter pn = some (mkFieldParam pn f conv emsg) := by
    simp [Command.getParameter, hps, findParam, mkFieldParam_name]
  have hgv : ∀ v ∈ v0 :: vs, cmd.getParameter v = none := by
    intro v hv
    have := (hvs v hv).2.1
    simp [Command.getParameter, hps, findParam, mkFieldParam_name, Ne.symm this]
  have hwp : cmd.willParseCommand (n ++ (' ' :: segJoin pn (v0 :: vs))) = true := by
    have := willParse_append cmd (segJoin pn (v0 :: vs))
    rwa [hname] at this
  have hdrop : (n ++ (' ' :: segJoin pn (v0 :: vs))).drop (cmd.name.length + 1)
      = segJoin pn (v0 :: vs) := by
    rw [hname]
    exact strip_name n _
  have hsplit : jsSplit (segJoin pn (v0 :: vs)) = pn :: v0 :: repWords pn vs :=
    jsSplit_segJoin pn hpn vs v0 (hvs v0 (List.mem_cons_self v0 vs)).1
      (fun x hx => (hvs x (List.mem_cons_of_mem v0 hx)).1)
  have hrep := scan_rep cmd.getParameter pn f emsg conv g hget vs v0 cmd.model []
    (fun v hv => ⟨hgv v (List.mem_cons_of_mem v0 hv), (hvs v (List.mem_cons_of_mem v0 hv)).1,
      (hvs v (List.mem_cons_of_mem v0 hv)).2.2⟩)
    (hvs v0 (List.mem_cons_self v0 vs)).1 (hvs v0 (List.mem_cons_self v0 vs)).2.2
  have hscan : cmd.scanPart (n ++ (' ' :: segJoin pn (v0 :: vs)))
      = (Except.ok ((v0 :: vs).foldl (fun mm v => modelSet mm f (g v)) cmd.model),
         (v0 :: vs).map (fun v => Event.paramParse pn v)) := by
    rw [Command.scanPart, hdrop, hsplit]
    rw [scanWords.eq_def]
    simp only [hget]
    rw [scanWords.eq_def]
    simp only [hgv v0 (List.mem_cons_self v0 vs), List.nil_append]
    rw [hrep]
    simp
  refine ⟨?_, modelGet_foldl_set f g vs cmd.model v0⟩
  simp [Command.parseCmd, hwp, hscan]

/-- Witness for C10: the single-parameter command `demoCmdP` on
`"test p a p b"` — the field ends up holding the conversion of the last
segment `b`. -/
theorem c10_repeated_boundaries_witness :
    demoCmdP.parseCmd ((("test").toList) ++ (' ' :: segJoin (("p").toList)
        [(("a").toList), (("b").toList)]))
      = (if demoCmdP.validate ([(("a").toList), (("b").toList)].foldl
            (fun mm v => modelSet mm (("val").toList) (Value.date v)) demoCmdP.model)
          then Except.ok ([(("a").toList), (("b").toList)].foldl
            (fun mm v => modelSet mm (("val").toList) (Value.date v)) demoCmdP.model)
          else Except.error (JsError.validationError valMsg),
         ([(("a").toList), (("b").toList)].map
            (fun v => Event.paramParse (("p").toList) v)) ++
           [Event.validateCall ([(("a").toList), (("b").toList)].foldl
              (fun mm v => modelSet mm (("val").toList) (Value.date v)) demoCmdP.model)
             (demoCmdP.validate ([(("a").toList), (("b").toList)].foldl
               (fun mm v => modelSet mm (("val").toList) (Value.date v)) demoCmdP.model))])
      ∧ modelGet ([(("a").toList), (("b").toList)].foldl
            (fun mm v => modelSet mm (("val").toList) (Value.date v)) demoCmdP.model)
            (("val").toList)
          = (([(("a").toList), (("b").toList)] : List (List Char)).getLast?).map Value.date :=
  c10_repeated_boundaries (("test").toList) (("p").toList) (("val").toList)
    (("empty").toList) demoConv Value.date demoCmdP (("a").toList) [(("b").toList)]
    (by decide) (by decide) (by decide) rfl rfl

end HubotCommand
